import Mathlib

/-!
Verification of the Smart_Tutor backend core: transcript acquisition and
chunk merging (`app/services/transcription_service.py`), context assembly
and answer generation (`app/services/ai_service.py`), and the ingestion /
Q&A routes (`app/routes/videos.py`, `app/routes/qa.py`).

Times are embedded as rationals (Python floats carrying seconds), text as
`String`, fallible code as `Except`/`Option`, and the external services
(yt-dlp, Whisper, the chat model, the database) as explicit oracle fields
of environment structures, so every function is executable.
-/

namespace SmartTutor

/-- A timed text unit: both the raw segments produced by caption parsing or
Whisper and the merged chunks have this shape
(`{start_time, end_time, text}` dicts in the Python source). -/
structure Seg where
  start_time : ℚ
  end_time : ℚ
  text : String
deriving DecidableEq, Repr

/-- `sep.join(parts)` of Python. -/
def joinSep (sep : String) : List String → String
  | [] => ""
  | [a] => a
  | a :: rest => a ++ sep ++ joinSep sep rest

/-- `re.search(r'[.!?]\s*$', text)` from `_merge_into_chunks`: after
discarding trailing whitespace the text ends with `.`, `!` or `?`.
Python's `\s` is modelled by `Char.isWhitespace`. -/
def isSentenceEnd (s : String) : Bool :=
  match s.data.reverse.dropWhile Char.isWhitespace with
  | [] => false
  | c :: _ => c = '.' || c = '!' || c = '?'

/-- The loop body of `_merge_into_chunks`: `cur` is the in-progress chunk,
the list holds the segments not yet consumed. -/
def mergeGo (window : ℚ) (cur : Seg) : List Seg → List Seg
  | [] => [cur]
  | seg :: rest =>
    let elapsed := seg.end_time - cur.start_time
    if elapsed ≥ window ∧ isSentenceEnd cur.text then
      cur :: mergeGo window ⟨seg.start_time, seg.end_time, seg.text⟩ rest
    else
      mergeGo window ⟨cur.start_time, seg.end_time, cur.text ++ " " ++ seg.text⟩ rest

/-- `_merge_into_chunks(segments, window_seconds=30.0)`: greedy forward
merge of segments into ~window-sized chunks, breaking only at sentence
boundaries; the final in-progress chunk is always emitted. -/
def mergeIntoChunks (segments : List Seg) (window : ℚ := 30) : List Seg :=
  match segments with
  | [] => []
  | s :: rest => mergeGo window ⟨s.start_time, s.end_time, s.text⟩ rest

/-- One event of a YouTube JSON3 caption payload, as `_parse_json3_captions`
reads it: millisecond start/duration (`.get` defaults 0 handled by the
caller supplying 0) and the `segs` list of `utf8` texts, `none` when the
event has no `"segs"` key. -/
structure CaptionEvent where
  tStartMs : ℤ
  dDurationMs : ℤ
  segs : Option (List String)
deriving Repr

/-- `_parse_json3_captions(data)`: turn the events into segments (dropping
events without `segs` and whitespace-only texts), then
`_merge_into_chunks(segments) if segments else None`. -/
def parseJson3Captions (events : List CaptionEvent) : Option (List Seg) :=
  let segments := events.filterMap fun event =>
    match event.segs with
    | none => none
    | some ss =>
      let textParts := (ss.map String.trim).filter fun t => t ≠ "" && t ≠ "\n"
      if textParts.isEmpty then none
      else some ⟨(event.tStartMs : ℚ) / 1000, ((event.tStartMs + event.dDurationMs : ℤ) : ℚ) / 1000,
        joinSep " " textParts⟩
  if segments.isEmpty then none else some (mergeIntoChunks segments)

/-- Oracle for `fetch_youtube_captions`: whether anything in its `try`
block raises (download failure, malformed payload, I/O error), whether a
`.json3` subtitle file is found, and the parsed caption events. -/
structure CaptionEnv where
  raises : Bool
  subFileFound : Bool
  events : List CaptionEvent

/-- `fetch_youtube_captions(video_id)`: any exception inside the `try`
block is caught and returns `None`; a missing subtitle file returns
`None`; otherwise the JSON3 payload is parsed and merged. -/
def fetchYoutubeCaptions (env : CaptionEnv) : Option (List Seg) :=
  if env.raises then none
  else if !env.subFileFound then none
  else parseJson3Captions env.events

/-- Oracle for `transcribe_with_whisper`: download success, whether the
audio file is found afterwards, its size in bytes, and the Whisper API
outcome (segments already carrying stripped text). -/
structure WhisperEnv where
  downloadOk : Bool
  fileFound : Bool
  fileSizeBytes : ℕ
  whisperResult : Except String (List Seg)

/-- `transcribe_with_whisper(video_id)`: raises on download failure, on a
missing audio file, and — before calling the Whisper API — whenever
`file_size_mb = size / (1024 * 1024)` exceeds 25; otherwise the Whisper
segments are merged into chunks. -/
def transcribeWithWhisper (env : WhisperEnv) : Except String (List Seg) :=
  if !env.downloadOk then .error "Failed to download audio"
  else if !env.fileFound then .error "Audio file not found after download"
  else if (env.fileSizeBytes : ℚ) / (1024 * 1024) > 25 then
    .error "Audio file too large. Whisper API supports up to 25MB. Try a shorter video."
  else
    match env.whisperResult with
    | .error e => .error e
    | .ok segs => .ok (mergeIntoChunks segs)

/-- `get_transcript(video_id)`: YouTube captions first (`if chunks:` —
not `None` and non-empty), else the Whisper fallback, tagging the source. -/
def getTranscript (cenv : CaptionEnv) (wenv : WhisperEnv) :
    Except String (List Seg × String) :=
  match fetchYoutubeCaptions cenv with
  | some chunks =>
    if chunks.isEmpty then
      match transcribeWithWhisper wenv with
      | .error e => .error e
      | .ok cs => .ok (cs, "whisper")
    else .ok (chunks, "youtube_captions")
  | none =>
    match transcribeWithWhisper wenv with
    | .error e => .error e
    | .ok cs => .ok (cs, "whisper")

/-- `f"{n:02d}"` of Python on an integer. -/
def pad2 (n : ℤ) : String :=
  if 0 ≤ n ∧ n < 10 then "0" ++ toString n else toString n

/-- `_format_time(seconds)`: `int(seconds // 60)` zero-padded, a colon,
`int(seconds % 60)` zero-padded.  Python's `//` floors and its `%` on a
positive divisor lands in `[0, 60)`, so on rationals the two fields are
`⌊s / 60⌋` and `⌊s⌋ - 60 * ⌊s / 60⌋`. -/
def formatTime (seconds : ℚ) : String :=
  let minutes : ℤ := ⌊seconds / 60⌋
  let secs : ℤ := ⌊seconds⌋ - 60 * minutes
  pad2 minutes ++ ":" ++ pad2 secs

/-- The summary dict as `build_context` and `generate_video_summary` use
it: optional fields mirror `.get` with defaults. -/
structure VideoSummary where
  title : Option String
  topic : Option String
  level : Option String
  key_concepts : List String
  paragraph : Option String
deriving DecidableEq, Repr

/-- One `qa_history` row as passed to `build_context`. -/
structure QAEntry where
  video_timestamp : ℚ
  question : String
  answer : String
deriving DecidableEq, Repr

/-- Section 1 of `build_context`: the video summary lines, present iff a
summary was given. -/
def summarySection (summary : Option VideoSummary) : List String :=
  match summary with
  | none => []
  | some s =>
    ["=== VIDEO SUMMARY ===",
     "Title: " ++ s.title.getD "Unknown",
     "Topic: " ++ s.topic.getD "Unknown",
     "Level: " ++ s.level.getD "Unknown"]
    ++ (if s.key_concepts.isEmpty then []
        else ["Key concepts: " ++ joinSep ", " s.key_concepts])
    ++ ["Summary: " ++ s.paragraph.getD "", ""]

/-- The header line of the transcript window section. -/
def transcriptHeader (timestamp : ℚ) : String :=
  "=== TRANSCRIPT (around " ++ formatTime timestamp ++ ") ==="

/-- One rendered transcript line: `[MM:SS-MM:SS] text`, with the
current-position marker when the chunk's span contains the timestamp. -/
def chunkLine (timestamp : ℚ) (c : Seg) : String :=
  "[" ++ formatTime c.start_time ++ "-" ++ formatTime c.end_time ++ "] " ++ c.text ++
    (if c.start_time ≤ timestamp ∧ timestamp ≤ c.end_time then " <<<< YOU ARE HERE" else "")

/-- The chunk filter of `build_context`:
`c.end_time >= max(0, timestamp - 60)` and `c.start_time <= timestamp + 30`. -/
def relevantChunks (chunks : List Seg) (timestamp : ℚ) : List Seg :=
  chunks.filter fun c =>
    decide (max 0 (timestamp - 60) ≤ c.end_time) && decide (c.start_time ≤ timestamp + 30)

/-- Section 2 of `build_context`: the transcript window, present iff some
chunk overlaps `[max(0, timestamp - 60), timestamp + 30]`. -/
def transcriptSection (chunks : List Seg) (timestamp : ℚ) : List String :=
  let rel := relevantChunks chunks timestamp
  if rel.isEmpty then []
  else transcriptHeader timestamp :: rel.map (chunkLine timestamp) ++ [""]

/-- Answer rendering inside the Q&A section: answers over 300 characters
are cut to their first 300 characters plus an ellipsis. -/
def truncateAnswer (answer : String) : String :=
  if 300 < answer.length then answer.take 300 ++ "..." else answer

/-- The two lines one history entry contributes to the Q&A section. -/
def qaLines (qa : QAEntry) : List String :=
  ["[" ++ formatTime qa.video_timestamp ++ "] Q: " ++ qa.question,
   "[" ++ formatTime qa.video_timestamp ++ "] A: " ++ truncateAnswer qa.answer]

/-- The time filter of the Q&A section: entries within ±300 seconds. -/
def nearbyQA (history : List QAEntry) (timestamp : ℚ) : List QAEntry :=
  history.filter fun qa => decide (|qa.video_timestamp - timestamp| ≤ 300)

/-- Section 3 of `build_context`: prior Q&A — the entries within ±300
seconds, then `nearby_qa[-5:]` (the last five), rendered in order. -/
def qaSection (history : List QAEntry) (timestamp : ℚ) : List String :=
  if history.isEmpty then []
  else
    let nearby := nearbyQA history timestamp
    let lastFive := nearby.drop (nearby.length - 5)
    if lastFive.isEmpty then []
    else "=== PREVIOUS Q&A (this session) ===" :: lastFive.flatMap qaLines ++ [""]

/-- The `context_parts` list that `build_context` accumulates. -/
def buildContextParts (summary : Option VideoSummary) (chunks : List Seg)
    (timestamp : ℚ) (history : List QAEntry) : List String :=
  summarySection summary ++ transcriptSection chunks timestamp ++ qaSection history timestamp

/-- `build_context(summary, transcript_chunks, timestamp, qa_history)`:
the three optional sections joined with newlines. -/
def buildContext (summary : Option VideoSummary) (chunks : List Seg)
    (timestamp : ℚ) (history : List QAEntry) : String :=
  joinSep "\n" (buildContextParts summary chunks timestamp history)

/-- `answer_question(context, question)`: the backend outcome is the
oracle; an exception is re-raised as a `RuntimeError` with the
`Failed to generate answer:` prefix. -/
def answerQuestion (backend : Except String String) : Except String String :=
  match backend with
  | .ok answer => .ok answer
  | .error e => .error ("Failed to generate answer: " ++ e)

/-- The terminal fragment `answer_question_stream` yields when the
backend raises. -/
def streamErrorFragment : String :=
  "\n\n[Error: Failed to generate answer. Please try again.]"

/-- `answer_question_stream(context, question)`: the backend produced
`deltas` (empty/`None` deltas are skipped by `if delta.content:`) and then
either finished (`err = none`) or raised (`err = some e`), in which case
one final error fragment is yielded and the sequence ends normally. -/
def answerQuestionStream (deltas : List String) (err : Option String) : List String :=
  deltas.filter (fun d => d ≠ "") ++ (if err.isSome then [streamErrorFragment] else [])

/-- Video lifecycle status (`videos.status`). -/
inductive VideoStatus
  | processing
  | ready
  | failed
deriving DecidableEq, Repr

/-- Oracle for one `_process_video` run: the caption and Whisper
environments behind `get_transcript`, the parsed LLM summary (`none` when
the summarization call raises or returns unparseable output), and whether
a `transcript_chunks` insert raises. -/
structure PipelineEnv where
  captions : CaptionEnv
  whisper : WhisperEnv
  summaryParse : Option VideoSummary
  insertFails : Bool

/-- The placeholder summary `generate_video_summary` builds in its
`except` handler. -/
def placeholderSummary (title : String) : VideoSummary where
  title := some title
  topic := some "Unable to generate summary"
  level := some "unknown"
  key_concepts := []
  paragraph := some "Summary generation failed. The video can still be used for Q&A."

/-- `generate_video_summary(transcript_chunks, title)`: on success the
parsed JSON gets `summary["title"] = title`; any exception (API error or
`json.loads` failure) yields the placeholder. Never raises. -/
def generateVideoSummary (llmParsed : Option VideoSummary) (title : String) : VideoSummary :=
  match llmParsed with
  | some s => { s with title := some title }
  | none => placeholderSummary title

/-- `_process_video(video_id, youtube_video_id, title)`: transcript →
chunk inserts → summary → status update; any exception in the `try` block
marks the video `failed`, otherwise it ends `ready` with the summary. -/
def processVideo (env : PipelineEnv) (title : String) :
    VideoStatus × Option VideoSummary :=
  match getTranscript env.captions env.whisper with
  | .error _ => (.failed, none)
  | .ok _ =>
    if env.insertFails then (.failed, none)
    else (.ready, some (generateVideoSummary env.summaryParse title))

/-- A `videos` row as `submit_video` uses it. -/
structure VideoRec where
  id : ℕ
  youtube_video_id : String
  title : String
  status : VideoStatus
deriving DecidableEq, Repr

/-- A `transcript_chunks` row. -/
structure ChunkRec where
  video_id : ℕ
  chunk : Seg
deriving DecidableEq, Repr

/-- The persistence state `submit_video` reads and writes. -/
structure DB where
  videos : List VideoRec
  chunks : List ChunkRec
  nextId : ℕ

/-- `submit_video(request)` after URL validation: returns the new state
and the background task enqueued (video row id, youtube id, title), if
any.  An existing `failed` video is retried: status set to `processing`,
its old transcript chunks deleted, the pipeline re-enqueued.  An existing
video in any other status is returned untouched, with no task. -/
def submitVideo (db : DB) (yid : String) (metaTitle : String) :
    DB × Option (ℕ × String × String) :=
  match db.videos.find? (fun v => v.youtube_video_id == yid) with
  | some v =>
    if v.status = .failed then
      ({ db with
          videos := db.videos.map fun w =>
            if w.id = v.id then { w with status := .processing } else w
          chunks := db.chunks.filter fun c => c.video_id ≠ v.id },
       some (v.id, yid, v.title))
    else (db, none)
  | none =>
    ({ db with
        videos := db.videos ++ [⟨db.nextId, yid, metaTitle, .processing⟩]
        nextId := db.nextId + 1 },
     some (db.nextId, yid, metaTitle))

/-- The only validation `ask_question_endpoint` performs on its raw
`request: dict`: `if not video_id or not question: raise 400`. -/
def askQuestionAccepts (video_id : Option String) (question : String) : Bool :=
  (match video_id with
   | none => false
   | some v => !(v == "")) && !(question == "")

/-- The question bounds declared by `AskQuestionRequest` in
`app/schemas/schemas.py`: `Field(..., min_length=1, max_length=2000)`. -/
def askQuestionRequestValid (question : String) : Bool :=
  1 ≤ question.length && question.length ≤ 2000

/-- Oracle for one `/qa/ask` request. -/
structure AskEnv where
  video_id : Option String
  question : String
  timestamp : ℚ
  videoFound : Bool
  videoReady : Bool
  summary : Option VideoSummary
  chunks : List Seg
  history : List QAEntry
  backend : Except String String

/-- `ask_question_endpoint(request)`: the dict checks, the 404/400 video
guards, then context assembly and the synchronous answer call; a
`RuntimeError` from the latter becomes a 500. On success the built
context and the answer are returned. -/
def askQuestionEndpoint (env : AskEnv) : Except (ℕ × String) (String × String) :=
  if !(askQuestionAccepts env.video_id env.question) then
    .error (400, "video_id and question are required")
  else if !env.videoFound then .error (404, "Video not found")
  else if !env.videoReady then .error (400, "Video is still being processed")
  else
    let context := buildContext env.summary (relevantChunks env.chunks env.timestamp)
      env.timestamp env.history
    match answerQuestion env.backend with
    | .error e => .error (500, e)
    | .ok answer => .ok (context, answer)

/-- The claim's reading of the sentence-boundary test: the accumulated
text ends in `.`, `!` or `?` optionally followed by whitespace. -/
def endsInSentencePunct (s : String) : Prop :=
  ∃ (front ws : List Char) (c : Char),
    s.data = front ++ c :: ws ∧ (c = '.' ∨ c = '!' ∨ c = '?') ∧ ∀ x ∈ ws, x.isWhitespace

end SmartTutor

namespace SmartTutor

example : mergeIntoChunks [⟨0, 10, "Hi."⟩, ⟨10, 35, "Bye."⟩] 30 =
    [⟨0, 10, "Hi."⟩, ⟨10, 35, "Bye."⟩] := by
  norm_num [mergeIntoChunks, mergeGo]
  decide

example : mergeIntoChunks [⟨0, 40, "Hello world."⟩] 30 = [⟨0, 40, "Hello world."⟩] := by
  norm_num [mergeIntoChunks, mergeGo]

example : mergeIntoChunks [⟨0, 10, "Hi"⟩, ⟨10, 35, "Bye."⟩] 30 =
    [⟨0, 35, "Hi Bye."⟩] := by
  norm_num [mergeIntoChunks, mergeGo]
  decide

example : formatTime 120 = "02:00" := by
  norm_num [formatTime, pad2]
  decide

example : formatTime 3605 = "60:05" := by
  norm_num [formatTime, pad2]
  decide

/-- The regex test of `_merge_into_chunks` agrees with the claim's wording:
the text ends in `.`, `!` or `?` optionally followed by whitespace. -/
theorem isSentenceEnd_iff (s : String) : isSentenceEnd s = true ↔ endsInSentencePunct s := by
  unfold isSentenceEnd endsInSentencePunct
  constructor
  · intro h
    rcases hd : s.data.reverse.dropWhile Char.isWhitespace with _ | ⟨c, rest⟩
    · rw [hd] at h; simp at h
    · rw [hd] at h
      simp only [Bool.or_eq_true, decide_eq_true_eq] at h
      refine ⟨rest.reverse, (s.data.reverse.takeWhile Char.isWhitespace).reverse, c, ?_, ?_, ?_⟩
      · have := List.takeWhile_append_dropWhile (p := Char.isWhitespace) (l := s.data.reverse)
        rw [hd] at this
        have h2 := congrArg List.reverse this
        simp only [List.reverse_reverse, List.reverse_append, List.reverse_cons] at h2
        simpa using h2.symm
      · tauto
      · intro x hx
        simp only [List.mem_reverse] at hx
        exact List.mem_takeWhile_imp hx
  · rintro ⟨front, ws, c, hdata, hc, hws⟩
    have hrev : s.data.reverse = ws.reverse ++ c :: front.reverse := by
      rw [hdata]; simp
    rw [hrev, List.dropWhile_append]
    have hnil : ws.reverse.dropWhile Char.isWhitespace = [] := by
      rw [List.dropWhile_eq_nil_iff]
      intro x hx
      exact hws x (List.mem_reverse.mp hx)
    rw [hnil]
    simp only [List.isEmpty_nil, if_true]
    have hcw : Char.isWhitespace c = false := by
      rcases hc with rfl | rfl | rfl <;> decide
    rw [List.dropWhile_cons, hcw]
    simp only [Bool.false_eq_true, if_false]
    rcases hc with rfl | rfl | rfl <;> simp

/-- The merger never produces an empty chunk list from a seeded chunk. -/
theorem mergeGo_ne_nil (w : ℚ) (cur : Seg) (rest : List Seg) : mergeGo w cur rest ≠ [] := by
  induction rest generalizing cur with
  | nil => simp [mergeGo]
  | cons seg rest ih =>
    rw [mergeGo]
    split
    · simp
    · exact ih _

/-- `joinSep` peels its head off a non-empty tail. -/
theorem joinSep_cons (sep a : String) (l : List String) (h : l ≠ []) :
    joinSep sep (a :: l) = a ++ sep ++ joinSep sep l := by
  cases l with
  | nil => exact absurd rfl h
  | cons b t => rfl

/-- Invariants of the merge loop over a sorted, well-formed remainder:
the produced chunks are sorted by `start_time`, each spans forward in
time, and all start at or after the seeded chunk's start. -/
theorem mergeGo_invariants (w : ℚ) (cur : Seg) (rest : List Seg)
    (hcur : cur.start_time ≤ cur.end_time)
    (hwf : ∀ s ∈ rest, s.start_time ≤ s.end_time)
    (hsorted : rest.Pairwise fun a b => a.start_time ≤ b.start_time)
    (hle : ∀ s ∈ rest, cur.start_time ≤ s.start_time) :
    (mergeGo w cur rest).Pairwise (fun a b => a.start_time ≤ b.start_time)
    ∧ (∀ c ∈ mergeGo w cur rest, c.start_time ≤ c.end_time)
    ∧ (∀ c ∈ mergeGo w cur rest, cur.start_time ≤ c.start_time) := by
  induction rest generalizing cur with
  | nil =>
    refine ⟨?_, ?_, ?_⟩ <;> simp [mergeGo]
    exact hcur
  | cons seg rest ih =>
    rw [mergeGo]
    have hseg_wf : seg.start_time ≤ seg.end_time := hwf seg (by simp)
    have hcur_seg : cur.start_time ≤ seg.start_time := hle seg (by simp)
    have hwf' : ∀ s ∈ rest, s.start_time ≤ s.end_time := fun s hs => hwf s (by simp [hs])
    have hsorted' : rest.Pairwise fun a b => a.start_time ≤ b.start_time :=
      hsorted.of_cons
    have hseg_le : ∀ s ∈ rest, seg.start_time ≤ s.start_time := by
      intro s hs
      exact List.rel_of_pairwise_cons hsorted hs
    split
    · obtain ⟨p1, p2, p3⟩ := ih ⟨seg.start_time, seg.end_time, seg.text⟩ hseg_wf hwf' hsorted'
        (fun s hs => hseg_le s hs)
      refine ⟨List.pairwise_cons.mpr ⟨?_, p1⟩, ?_, ?_⟩
      · intro c hc
        exact le_trans hcur_seg (p3 c hc)
      · intro c hc
        rcases List.mem_cons.mp hc with rfl | hc
        · exact hcur
        · exact p2 c hc
      · intro c hc
        rcases List.mem_cons.mp hc with rfl | hc
        · exact le_refl _
        · exact le_trans hcur_seg (p3 c hc)
    · exact ih ⟨cur.start_time, seg.end_time, cur.text ++ " " ++ seg.text⟩
        (le_trans hcur_seg hseg_wf) hwf' hsorted'
        (fun s hs => hle s (by simp [hs]))

/-- The merge loop preserves the space-joined text of its input. -/
theorem mergeGo_text (w : ℚ) (cur : Seg) (rest : List Seg) :
    joinSep " " ((mergeGo w cur rest).map Seg.text) =
      joinSep " " (cur.text :: rest.map Seg.text) := by
  induction rest generalizing cur with
  | nil => simp [mergeGo]
  | cons seg rest ih =>
    rw [mergeGo]
    split
    · have hne : (mergeGo w ⟨seg.start_time, seg.end_time, seg.text⟩ rest).map Seg.text ≠ [] := by
        simp only [ne_eq, List.map_eq_nil_iff]
        exact mergeGo_ne_nil w _ rest
      rw [List.map_cons, joinSep_cons _ _ _ hne, ih ⟨seg.start_time, seg.end_time, seg.text⟩]
      rfl
    · rw [ih ⟨cur.start_time, seg.end_time, cur.text ++ " " ++ seg.text⟩]
      simp only [List.map_cons]
      cases hrest : rest.map Seg.text with
      | nil => simp [joinSep, String.append_assoc]
      | cons b t => simp [joinSep, String.append_assoc]

/-- C1: the chunk merger is a single forward pass that seeds the current
chunk with the first segment; for each subsequent segment it closes the
current chunk and seeds a new one exactly when
`elapsed = segment.end_time - current.start_time ≥ window` and the
accumulated text ends in `.`, `!` or `?` optionally followed by
whitespace, and otherwise extends the current chunk's `end_time` and
appends the text space-joined; the final in-progress chunk is always
emitted.  Merging `[{0,10,"Hi."}, {10,35,"Bye."}]` with a 30s window
yields exactly `[{0,10,"Hi."}]` and `[{10,35,"Bye."}]`. -/
theorem C1_merge_single_pass :
    (∀ w : ℚ, mergeIntoChunks [] w = [])
    ∧ (∀ (w : ℚ) (s : Seg) (rest : List Seg),
        mergeIntoChunks (s :: rest) w = mergeGo w ⟨s.start_time, s.end_time, s.text⟩ rest)
    ∧ (∀ (w : ℚ) (cur : Seg), mergeGo w cur [] = [cur])
    ∧ (∀ (w : ℚ) (cur seg : Seg) (rest : List Seg),
        (seg.end_time - cur.start_time ≥ w ∧ endsInSentencePunct cur.text →
          mergeGo w cur (seg :: rest) =
            cur :: mergeGo w ⟨seg.start_time, seg.end_time, seg.text⟩ rest)
        ∧ (¬(seg.end_time - cur.start_time ≥ w ∧ endsInSentencePunct cur.text) →
          mergeGo w cur (seg :: rest) =
            mergeGo w ⟨cur.start_time, seg.end_time, cur.text ++ " " ++ seg.text⟩ rest))
    ∧ mergeIntoChunks [⟨0, 10, "Hi."⟩, ⟨10, 35, "Bye."⟩] 30 =
        [⟨0, 10, "Hi."⟩, ⟨10, 35, "Bye."⟩] := by
  refine ⟨fun _ => rfl, fun _ _ _ => rfl, fun _ _ => rfl, ?_, ?_⟩
  · intro w cur seg rest
    constructor
    · rintro ⟨h1, h2⟩
      rw [mergeGo, if_pos ⟨h1, (isSentenceEnd_iff _).mpr h2⟩]
    · intro h
      rw [mergeGo, if_neg]
      rintro ⟨h1, h2⟩
      exact h ⟨h1, (isSentenceEnd_iff _).mp h2⟩
  · norm_num [mergeIntoChunks, mergeGo]
    decide

/-- C2 as stated is false: on the unsorted segment list
`[{10,20,"a"}, {0,5,"b"}]` the merger produces the single chunk
`{10,5,"a b"}`, whose `end_time` is strictly below its `start_time`. -/
theorem C2_counterexample :
    mergeIntoChunks [⟨10, 20, "a"⟩, ⟨0, 5, "b"⟩] 30 = [⟨10, 5, "a b"⟩]
    ∧ ¬ ((10 : ℚ) ≤ 5) := by
  constructor
  · norm_num [mergeIntoChunks, mergeGo]
    decide
  · norm_num

/-- C2 amended: for every segment list sorted by non-decreasing
`start_time` in which every segment satisfies `end_time ≥ start_time`,
the merged chunks have non-decreasing `start_time` and
`end_time ≥ start_time`, and the space-joined chunk texts equal the
space-joined segment texts (order preserved). -/
theorem C2_merge_invariants (w : ℚ) (segs : List Seg)
    (hsorted : segs.Pairwise fun a b => a.start_time ≤ b.start_time)
    (hwf : ∀ s ∈ segs, s.start_time ≤ s.end_time) :
    (mergeIntoChunks segs w).Pairwise (fun a b => a.start_time ≤ b.start_time)
    ∧ (∀ c ∈ mergeIntoChunks segs w, c.start_time ≤ c.end_time)
    ∧ joinSep " " ((mergeIntoChunks segs w).map Seg.text) =
        joinSep " " (segs.map Seg.text) := by
  cases segs with
  | nil => simp [mergeIntoChunks, joinSep]
  | cons s rest =>
    unfold mergeIntoChunks
    obtain ⟨p1, p2, p3⟩ := mergeGo_invariants w ⟨s.start_time, s.end_time, s.text⟩ rest
      (hwf s (by simp)) (fun x hx => hwf x (by simp [hx])) hsorted.of_cons
      (fun x hx => List.rel_of_pairwise_cons hsorted hx)
    exact ⟨p1, p2, by rw [mergeGo_text]; rfl⟩

/-- C2's amended theorem at a concrete sorted input. -/
theorem C2_merge_invariants_witness :
    (mergeIntoChunks [⟨0, 10, "Hi."⟩, ⟨10, 35, "Bye."⟩] 30).Pairwise
      (fun a b => a.start_time ≤ b.start_time)
    ∧ (∀ c ∈ mergeIntoChunks [⟨0, 10, "Hi."⟩, ⟨10, 35, "Bye."⟩] 30,
        c.start_time ≤ c.end_time)
    ∧ joinSep " " ((mergeIntoChunks [⟨0, 10, "Hi."⟩, ⟨10, 35, "Bye."⟩] 30).map Seg.text) =
        joinSep " " (([⟨0, 10, "Hi."⟩, ⟨10, 35, "Bye."⟩] : List Seg).map Seg.text) :=
  C2_merge_invariants 30 [⟨0, 10, "Hi."⟩, ⟨10, 35, "Bye."⟩]
    (by norm_num [List.pairwise_cons]) (by norm_num)

/-- The transcript header's character list, split at the append seams. -/
theorem transcriptHeader_data (t : ℚ) :
    (transcriptHeader t).data =
      ("=== TRANSCRIPT (around ".data ++ (formatTime t).data) ++ ") ===".data := by
  unfold transcriptHeader
  rw [String.data_append, String.data_append]

/-- The transcript header's character list starts with `'='`. -/
theorem transcriptHeader_data_cons (t : ℚ) :
    (transcriptHeader t).data =
      '=' :: (("== TRANSCRIPT (around ".data ++ (formatTime t).data) ++ ") ===".data) := by
  rw [transcriptHeader_data]
  rfl

/-- A string whose first character is not `'='` is not the transcript
header. -/
theorem ne_transcriptHeader_of_head (t : ℚ) (s : String) (c : Char) (r : List Char)
    (hs : s.data = c :: r) (hc : c ≠ '=') : s ≠ transcriptHeader t := by
  intro h
  rw [h, transcriptHeader_data_cons] at hs
  injection hs with h1 _
  exact hc h1.symm

/-- The summary section header differs from the transcript header. -/
theorem videoHeader_ne_transcriptHeader (t : ℚ) :
    "=== VIDEO SUMMARY ===" ≠ transcriptHeader t := by
  intro h
  have hd := congrArg String.data h
  rw [transcriptHeader_data] at hd
  have hl1 : ("=== TRANSCRIPT (around ".data).length = 23 := rfl
  have h4 := congrArg (fun l => l[4]?) hd
  simp only at h4
  rw [List.getElem?_append_left (by rw [List.length_append, hl1]; omega),
    List.getElem?_append_left (by rw [hl1]; omega)] at h4
  exact absurd h4 (by decide)

/-- The Q&A section header differs from the transcript header. -/
theorem qaHeader_ne_transcriptHeader (t : ℚ) :
    "=== PREVIOUS Q&A (this session) ===" ≠ transcriptHeader t := by
  intro h
  have hd := congrArg String.data h
  rw [transcriptHeader_data] at hd
  have hl1 : ("=== TRANSCRIPT (around ".data).length = 23 := rfl
  have h4 := congrArg (fun l => l[4]?) hd
  simp only at h4
  rw [List.getElem?_append_left (by rw [List.length_append, hl1]; omega),
    List.getElem?_append_left (by rw [hl1]; omega)] at h4
  exact absurd h4 (by decide)

/-- A Boolean filter leaves something iff some element passes it. -/
theorem filter_ne_nil_iff_exists {α : Type} (p : α → Bool) (l : List α) :
    l.filter p ≠ [] ↔ ∃ a ∈ l, p a = true := by
  constructor
  · intro h
    obtain ⟨a, ha⟩ := List.exists_mem_of_ne_nil _ h
    exact ⟨a, (List.mem_filter.mp ha).1, (List.mem_filter.mp ha).2⟩
  · rintro ⟨a, hal, hap⟩ h
    exact absurd (List.mem_filter.mpr ⟨hal, hap⟩) (by rw [h]; exact List.not_mem_nil a)

/-- With non-negative chunk end times the clamp `max(0, t - 60)` in the
chunk filter is immaterial: the filter is the claim's window test. -/
theorem relevantChunks_unclamped (chunks : List Seg) (t : ℚ)
    (hnn : ∀ c ∈ chunks, 0 ≤ c.end_time) :
    relevantChunks chunks t =
      chunks.filter (fun c =>
        decide (t - 60 ≤ c.end_time) && decide (c.start_time ≤ t + 30)) := by
  unfold relevantChunks
  apply List.filter_congr
  intro c hc
  have h0 : (0 : ℚ) ≤ c.end_time := hnn c hc
  have hiff : (max 0 (t - 60) ≤ c.end_time) ↔ (t - 60 ≤ c.end_time) := by
    rw [max_le_iff]
    exact ⟨fun h => h.2, fun h => ⟨h0, h⟩⟩
  simp [hiff]

/-- The transcript section written with a plain list test. -/
theorem transcriptSection_eq (chunks : List Seg) (t : ℚ) :
    transcriptSection chunks t =
      if relevantChunks chunks t = [] then []
      else transcriptHeader t :: (relevantChunks chunks t).map (chunkLine t) ++ [""] := by
  unfold transcriptSection
  rcases h : relevantChunks chunks t with _ | ⟨c, rest⟩ <;> simp [h]

/-- The transcript header never appears among the summary section lines. -/
theorem transcriptHeader_not_mem_summarySection (t : ℚ) (summary : Option VideoSummary) :
    transcriptHeader t ∉ summarySection summary := by
  intro hmem
  cases summary with
  | none => exact List.not_mem_nil _ hmem
  | some s =>
    unfold summarySection at hmem
    rcases List.mem_append.mp hmem with hAB | hC
    · rcases List.mem_append.mp hAB with hA | hB
      · simp only [List.mem_cons, List.not_mem_nil, or_false] at hA
        rcases hA with h | h | h | h
        · exact videoHeader_ne_transcriptHeader t h.symm
        · exact ne_transcriptHeader_of_head t _ 'T' _
            (by rw [String.data_append]; rfl) (by decide) h.symm
        · exact ne_transcriptHeader_of_head t _ 'T' _
            (by rw [String.data_append]; rfl) (by decide) h.symm
        · exact ne_transcriptHeader_of_head t _ 'L' _
            (by rw [String.data_append]; rfl) (by decide) h.symm
      · split at hB
        · simp at hB
        · exact ne_transcriptHeader_of_head t _ 'K' _
            (by rw [String.data_append]; rfl) (by decide) (List.mem_singleton.mp hB).symm
    · simp only [List.mem_cons, List.not_mem_nil, or_false] at hC
      rcases hC with h | h
      · exact ne_transcriptHeader_of_head t _ 'S' _
          (by rw [String.data_append]; rfl) (by decide) h.symm
      · have hd := congrArg String.data h
        rw [transcriptHeader_data_cons] at hd
        exact List.cons_ne_nil _ _ hd

/-- The transcript header never appears among the Q&A section lines. -/
theorem transcriptHeader_not_mem_qaSection (t : ℚ) (hist : List QAEntry) :
    transcriptHeader t ∉ qaSection hist t := by
  intro hq
  simp only [qaSection] at hq
  split at hq
  · simp at hq
  · split at hq
    · simp at hq
    · rcases List.mem_cons.mp hq with h | hq
      · exact qaHeader_ne_transcriptHeader t h.symm
      · rcases List.mem_append.mp hq with hq | hq
        · obtain ⟨qa, _, hin⟩ := List.mem_flatMap.mp hq
          unfold qaLines at hin
          rcases List.mem_cons.mp hin with h | hin
          · exact ne_transcriptHeader_of_head t _ '[' _
              (by rw [String.data_append, String.data_append, String.data_append]; rfl)
              (by decide) h.symm
          · rcases List.mem_cons.mp hin with h | hin
            · exact ne_transcriptHeader_of_head t _ '[' _
                (by rw [String.data_append, String.data_append, String.data_append]; rfl)
                (by decide) h.symm
            · simp at hin
        · have h := List.mem_singleton.mp hq
          have hd := congrArg String.data h
          rw [transcriptHeader_data_cons] at hd
          exact List.cons_ne_nil _ _ hd

/-- When no chunk passes the window filter, the transcript header occurs
nowhere in the assembled context parts. -/
theorem transcriptHeader_not_mem_parts (summary : Option VideoSummary) (chunks : List Seg)
    (t : ℚ) (hist : List QAEntry) (hrel : relevantChunks chunks t = []) :
    transcriptHeader t ∉ buildContextParts summary chunks t hist := by
  intro hmem
  unfold buildContextParts at hmem
  rw [transcriptSection_eq, if_pos hrel, List.append_nil] at hmem
  rcases List.mem_append.mp hmem with hs | hq
  · exact transcriptHeader_not_mem_summarySection t summary hs
  · exact transcriptHeader_not_mem_qaSection t hist hq

/-- C3: for chunks with non-negative end times, `build_context` includes a
transcript window section iff some chunk overlaps `[t - 60, t + 30]`
(overlap: `end_time ≥ window start` and `start_time ≤ window end`); each
overlapping chunk is rendered as `[MM:SS-MM:SS] text` with a
current-position marker exactly on the chunk whose span contains `t`; and
when no chunk overlaps, the output contains no transcript section header
at all. -/
theorem C3_transcript_window (summary : Option VideoSummary) (chunks : List Seg)
    (t : ℚ) (hist : List QAEntry) (hnn : ∀ c ∈ chunks, 0 ≤ c.end_time) :
    (transcriptSection chunks t ≠ [] ↔
      ∃ c ∈ chunks, t - 60 ≤ c.end_time ∧ c.start_time ≤ t + 30)
    ∧ relevantChunks chunks t =
        chunks.filter (fun c =>
          decide (t - 60 ≤ c.end_time) && decide (c.start_time ≤ t + 30))
    ∧ (transcriptSection chunks t ≠ [] →
        transcriptSection chunks t =
          transcriptHeader t :: (relevantChunks chunks t).map (chunkLine t) ++ [""])
    ∧ (∀ c : Seg, chunkLine t c =
        "[" ++ formatTime c.start_time ++ "-" ++ formatTime c.end_time ++ "] " ++ c.text ++
          (if c.start_time ≤ t ∧ t ≤ c.end_time then " <<<< YOU ARE HERE" else ""))
    ∧ ((¬ ∃ c ∈ chunks, t - 60 ≤ c.end_time ∧ c.start_time ≤ t + 30) →
        transcriptHeader t ∉ buildContextParts summary chunks t hist) := by
  have hrel := relevantChunks_unclamped chunks t hnn
  have hiff : relevantChunks chunks t ≠ [] ↔
      ∃ c ∈ chunks, t - 60 ≤ c.end_time ∧ c.start_time ≤ t + 30 := by
    rw [hrel, filter_ne_nil_iff_exists]
    simp
  refine ⟨?_, hrel, ?_, fun c => rfl, ?_⟩
  · rw [transcriptSection_eq]
    constructor
    · intro h
      by_contra hex
      rw [if_pos (by_contra fun hne => hex (hiff.mp hne))] at h
      exact h rfl
    · intro hex
      rw [if_neg (hiff.mpr hex)]
      simp
  · intro h
    rw [transcriptSection_eq] at h ⊢
    rcases hcase : relevantChunks chunks t with _ | ⟨c, rest⟩
    · rw [hcase, if_pos rfl] at h
      exact absurd rfl h
    · simp
  · intro hex
    exact transcriptHeader_not_mem_parts summary chunks t hist
      (by_contra fun hne => hex (hiff.mp hne))

/-- C3's theorem at a concrete input: one chunk spanning `[60, 150]`,
timestamp 120. -/
theorem C3_transcript_window_witness :
    (transcriptSection [⟨60, 150, "limits."⟩] 120 ≠ [] ↔
      ∃ c ∈ [(⟨60, 150, "limits."⟩ : Seg)],
        (120 : ℚ) - 60 ≤ c.end_time ∧ c.start_time ≤ (120 : ℚ) + 30)
    ∧ relevantChunks [⟨60, 150, "limits."⟩] 120 =
        [(⟨60, 150, "limits."⟩ : Seg)].filter (fun c =>
          decide ((120 : ℚ) - 60 ≤ c.end_time) && decide (c.start_time ≤ (120 : ℚ) + 30))
    ∧ (transcriptSection [⟨60, 150, "limits."⟩] 120 ≠ [] →
        transcriptSection [⟨60, 150, "limits."⟩] 120 =
          transcriptHeader 120 ::
            (relevantChunks [⟨60, 150, "limits."⟩] 120).map (chunkLine 120) ++ [""])
    ∧ (∀ c : Seg, chunkLine 120 c =
        "[" ++ formatTime c.start_time ++ "-" ++ formatTime c.end_time ++ "] " ++ c.text ++
          (if c.start_time ≤ (120 : ℚ) ∧ (120 : ℚ) ≤ c.end_time
           then " <<<< YOU ARE HERE" else ""))
    ∧ ((¬ ∃ c ∈ [(⟨60, 150, "limits."⟩ : Seg)],
          (120 : ℚ) - 60 ≤ c.end_time ∧ c.start_time ≤ (120 : ℚ) + 30) →
        transcriptHeader 120 ∉ buildContextParts none [⟨60, 150, "limits."⟩] 120 []) :=
  C3_transcript_window none [⟨60, 150, "limits."⟩] 120 [] (by norm_num)

/-- The `[-5:]` slice of the filtered history is empty only when the
filtered history itself is. -/
theorem qa_lastFive_eq_nil_iff (l : List QAEntry) :
    l.drop (l.length - 5) = [] ↔ l = [] := by
  rw [List.drop_eq_nil_iff]
  cases l with
  | nil => simp
  | cons a tl =>
    simp only [List.length_cons]
    constructor
    · intro h
      exact absurd h (by omega)
    · intro h
      exact absurd h (by simp)

/-- C4: `build_context` includes a prior-Q&A section iff some history
entry lies within ±300 seconds of the timestamp; of the filtered entries
only the last (most recent) five are rendered, in order, and every
rendered answer longer than 300 characters is cut to its first 300
characters plus an ellipsis.  With entries at 100s and 5000s and query
timestamp 110s, only the 100s entry is included. -/
theorem C4_prior_qa (t : ℚ) (hist : List QAEntry) :
    (qaSection hist t ≠ [] ↔ ∃ qa ∈ hist, |qa.video_timestamp - t| ≤ 300)
    ∧ nearbyQA hist t = hist.filter (fun qa => decide (|qa.video_timestamp - t| ≤ 300))
    ∧ qaSection hist t =
        (if nearbyQA hist t = [] then []
         else "=== PREVIOUS Q&A (this session) ===" ::
           ((nearbyQA hist t).drop ((nearbyQA hist t).length - 5)).flatMap qaLines ++ [""])
    ∧ ((nearbyQA hist t).drop ((nearbyQA hist t).length - 5)).length ≤ 5
    ∧ ((nearbyQA hist t).drop ((nearbyQA hist t).length - 5)) <:+ nearbyQA hist t
    ∧ (∀ qa : QAEntry, qaLines qa =
        ["[" ++ formatTime qa.video_timestamp ++ "] Q: " ++ qa.question,
         "[" ++ formatTime qa.video_timestamp ++ "] A: " ++
           (if 300 < qa.answer.length then qa.answer.take 300 ++ "..." else qa.answer)])
    ∧ qaSection [⟨100, "q1", "a1"⟩, ⟨5000, "q2", "a2"⟩] 110 =
        ["=== PREVIOUS Q&A (this session) ===", "[01:40] Q: q1", "[01:40] A: a1", ""] := by
  have heq : qaSection hist t =
      (if nearbyQA hist t = [] then []
       else "=== PREVIOUS Q&A (this session) ===" ::
         ((nearbyQA hist t).drop ((nearbyQA hist t).length - 5)).flatMap qaLines ++ [""]) := by
    unfold qaSection
    cases hh : hist with
    | nil => simp [nearbyQA]
    | cons a tl =>
      simp only [List.isEmpty_cons, Bool.false_eq_true, if_false]
      by_cases hn : nearbyQA (a :: tl) t = []
      · rw [hn]
        simp
      · rw [if_neg hn, if_neg (by
          simp only [List.isEmpty_eq_true]
          exact fun hc => hn ((qa_lastFive_eq_nil_iff _).mp hc))]
  refine ⟨?_, rfl, heq, ?_, List.drop_suffix _ _, fun qa => rfl, ?_⟩
  · rw [heq]
    have hx : nearbyQA hist t ≠ [] ↔ ∃ qa ∈ hist, |qa.video_timestamp - t| ≤ 300 := by
      unfold nearbyQA
      rw [filter_ne_nil_iff_exists]
      simp
    constructor
    · intro h
      by_contra hex
      rw [if_pos (by_contra fun hne => hex (hx.mp hne))] at h
      exact h rfl
    · intro hex
      rw [if_neg (hx.mpr hex)]
      simp
  · rw [List.length_drop]
    omega
  · norm_num [qaSection, nearbyQA, qaLines, truncateAnswer, formatTime, pad2]
    decide

/-- C5: when the downloaded audio file exceeds 25 MB, the Whisper
fallback raises before the transcription service is invoked (the outcome
does not depend on the Whisper oracle), and the ingestion pipeline marks
the video failed when no captions were available. -/
theorem C5_whisper_size_ceiling (wenv : WhisperEnv)
    (hdl : wenv.downloadOk = true) (hff : wenv.fileFound = true)
    (hsize : (25 : ℚ) < (wenv.fileSizeBytes : ℚ) / (1024 * 1024)) :
    transcribeWithWhisper wenv =
      .error "Audio file too large. Whisper API supports up to 25MB. Try a shorter video."
    ∧ (∀ r : Except String (List Seg),
        transcribeWithWhisper { wenv with whisperResult := r } = transcribeWithWhisper wenv)
    ∧ (∀ (cenv : CaptionEnv) (sp : Option VideoSummary) (ins : Bool) (title : String),
        fetchYoutubeCaptions cenv = none →
        (processVideo ⟨cenv, wenv, sp, ins⟩ title).1 = .failed) := by
  have herr : transcribeWithWhisper wenv =
      .error "Audio file too large. Whisper API supports up to 25MB. Try a shorter video." := by
    unfold transcribeWithWhisper
    rw [hdl, hff]
    simp [hsize]
  refine ⟨herr, ?_, ?_⟩
  · intro r
    unfold transcribeWithWhisper
    simp [hdl, hff, hsize]
  · intro cenv sp ins title hfc
    unfold processVideo getTranscript
    simp only [hfc, herr]

/-- C5's theorem at a concrete oversize audio file (30,000,000 bytes,
about 28.6 MB). -/
theorem C5_whisper_size_ceiling_witness :
    transcribeWithWhisper ⟨true, true, 30000000, .ok []⟩ =
      .error "Audio file too large. Whisper API supports up to 25MB. Try a shorter video." :=
  (C5_whisper_size_ceiling ⟨true, true, 30000000, .ok []⟩ rfl rfl (by norm_num)).1

/-- C6: a summarization failure (API error or unparseable output) yields
the placeholder summary instead of an exception, the pipeline still ends
`ready` whenever the transcript was acquired and persisted, and the video
fails exactly when transcript acquisition raises or persistence raises. -/
theorem C6_summary_fallback (title : String) (env : PipelineEnv) :
    generateVideoSummary none title = placeholderSummary title
    ∧ placeholderSummary title =
        ⟨some title, some "Unable to generate summary", some "unknown", [],
         some "Summary generation failed. The video can still be used for Q&A."⟩
    ∧ ((∃ res, getTranscript env.captions env.whisper = .ok res) → env.insertFails = false →
        (processVideo env title).1 = .ready
        ∧ (processVideo env title).2 = some (generateVideoSummary env.summaryParse title))
    ∧ ((processVideo env title).1 = .failed ↔
        (∃ e, getTranscript env.captions env.whisper = .error e) ∨ env.insertFails = true) := by
  refine ⟨rfl, rfl, ?_, ?_⟩
  · rintro ⟨res, hres⟩ hins
    unfold processVideo
    rw [hres, hins]
    simp
  · unfold processVideo
    rcases hres : getTranscript env.captions env.whisper with e | res
    · simp
    · cases hins : env.insertFails <;> simp

/-- Two video rows of a table with pairwise-distinct ids that share an id
are the same row. -/
theorem videoRec_mem_unique {l : List VideoRec}
    (hpw : l.Pairwise fun a b => a.id ≠ b.id) {a b : VideoRec}
    (ha : a ∈ l) (hb : b ∈ l) (hid : a.id = b.id) : a = b := by
  induction l with
  | nil => cases ha
  | cons x tl ih =>
    rcases List.mem_cons.mp ha with rfl | ha' <;> rcases List.mem_cons.mp hb with rfl | hb'
    · rfl
    · exact absurd hid (List.rel_of_pairwise_cons hpw hb')
    · exact absurd hid.symm (List.rel_of_pairwise_cons hpw ha')
    · exact ih hpw.of_cons ha' hb'

/-- C7: resubmitting the URL of a `failed` video sets its status to
`processing`, deletes every previously persisted transcript chunk of that
video (removing rows only), and re-enqueues the ingestion pipeline; the
pipeline itself never writes `processing`, and `submit_video` moves an
existing row to `processing` only from `failed`. -/
theorem C7_retry (db : DB) (yid mt : String) (v : VideoRec)
    (hfind : db.videos.find? (fun w => w.youtube_video_id == yid) = some v)
    (hfailed : v.status = .failed) :
    (∀ w ∈ (submitVideo db yid mt).1.videos, w.id = v.id → w.status = .processing)
    ∧ (∃ w ∈ (submitVideo db yid mt).1.videos, w.id = v.id)
    ∧ (∀ c ∈ (submitVideo db yid mt).1.chunks, c.video_id ≠ v.id)
    ∧ (∀ c ∈ (submitVideo db yid mt).1.chunks, c ∈ db.chunks)
    ∧ (submitVideo db yid mt).2 = some (v.id, yid, v.title)
    ∧ (∀ (env : PipelineEnv) (title : String), (processVideo env title).1 ≠ .processing)
    ∧ (∀ w ∈ db.videos, w.id ≠ v.id → w ∈ (submitVideo db yid mt).1.videos)
    ∧ (∀ (db₂ : DB) (y m : String) (w w' : VideoRec),
        db₂.videos.Pairwise (fun a b => a.id ≠ b.id) →
        (∀ u ∈ db₂.videos, u.id < db₂.nextId) →
        w ∈ db₂.videos → w' ∈ (submitVideo db₂ y m).1.videos → w'.id = w.id →
        w'.status = .processing → w.status = .processing ∨ w.status = .failed) := by
  have hvmem : v ∈ db.videos := List.mem_of_find?_eq_some hfind
  have hsub : submitVideo db yid mt =
      ({ db with
          videos := db.videos.map fun w =>
            if w.id = v.id then { w with status := .processing } else w
          chunks := db.chunks.filter fun c => c.video_id ≠ v.id },
       some (v.id, yid, v.title)) := by
    simp [submitVideo, hfind, hfailed]
  refine ⟨?_, ?_, ?_, ?_, ?_, ?_, ?_, ?_⟩
  · intro w hw hid
    rw [hsub] at hw
    obtain ⟨u, _, hu⟩ := List.mem_map.mp hw
    by_cases hcase : u.id = v.id
    · have : w = { u with status := VideoStatus.processing } := by
        rw [← hu]; simp [hcase]
      rw [this]
    · have : w = u := by rw [← hu]; simp [hcase]
      rw [this] at hid
      exact absurd hid hcase
  · refine ⟨{ v with status := .processing }, ?_, rfl⟩
    rw [hsub]
    exact List.mem_map.mpr ⟨v, hvmem, by simp⟩
  · intro c hc
    rw [hsub] at hc
    have := (List.mem_filter.mp hc).2
    simpa using this
  · intro c hc
    rw [hsub] at hc
    exact (List.mem_filter.mp hc).1
  · rw [hsub]
  · intro env title
    unfold processVideo
    rcases getTranscript env.captions env.whisper with e | res
    · simp
    · cases env.insertFails <;> simp
  · intro w hw hid
    rw [hsub]
    exact List.mem_map.mpr ⟨w, hw, by simp [hid]⟩
  · intro db₂ y m w w' hpw hfresh hw hw' hid hst
    unfold submitVideo at hw'
    rcases hfind₂ : db₂.videos.find? (fun u => u.youtube_video_id == y) with _ | u <;>
      rw [hfind₂] at hw' <;> simp only at hw'
    · rcases List.mem_append.mp hw' with hin | hnew
      · have : w' = w := videoRec_mem_unique hpw hin hw hid
        left
        rw [← this]
        exact hst
      · exfalso
        have hnew' : w' = ⟨db₂.nextId, y, m, .processing⟩ := List.mem_singleton.mp hnew
        have hlt : w.id < db₂.nextId := hfresh w hw
        rw [← hid, hnew'] at hlt
        exact absurd hlt (lt_irrefl _)
    · have humem : u ∈ db₂.videos := List.mem_of_find?_eq_some hfind₂
      by_cases hu : u.status = .failed
      · rw [if_pos hu] at hw'
        simp only at hw'
        obtain ⟨x, hx, hxw⟩ := List.mem_map.mp hw'
        by_cases hxid : x.id = u.id
        · have hxu : x = u := videoRec_mem_unique hpw hx humem hxid
          have hxw2 : w' = { x with status := VideoStatus.processing } := by
            rw [← hxw]; simp [hxid]
          have hwid : x.id = w.id := by rw [← hid, hxw2]
          have hxweq : x = w := videoRec_mem_unique hpw hx hw hwid
          right
          rw [← hxweq, hxu]
          exact hu
        · have hxw2 : w' = x := by rw [← hxw]; simp [hxid]
          have hwid : x.id = w.id := by rw [← hid, hxw2]
          have hxweq : x = w := videoRec_mem_unique hpw hx hw hwid
          left
          rw [← hxweq, ← hxw2]
          exact hst
      · rw [if_neg hu] at hw'
        simp only at hw'
        have : w' = w := videoRec_mem_unique hpw hw' hw hid
        left
        rw [← this]
        exact hst

/-- C7's theorem at a concrete one-row database holding a failed video
with one leftover chunk. -/
theorem C7_retry_witness :
    (submitVideo ⟨[⟨1, "ab", "T", .failed⟩], [⟨1, ⟨0, 1, "x"⟩⟩], 2⟩ "ab" "T2").2 =
      some (1, "ab", "T") :=
  (C7_retry ⟨[⟨1, "ab", "T", .failed⟩], [⟨1, ⟨0, 1, "x"⟩⟩], 2⟩ "ab" "T2"
    ⟨1, "ab", "T", .failed⟩ rfl rfl).2.2.2.2.1

/-- C8: a generation-backend error makes the synchronous path raise a
reported generation failure (surfaced as a 500 by the endpoint), while
the streaming path never raises: it yields the fragments received so far
followed by exactly one final error fragment, and the sequence ends
normally. -/
theorem C8_stream_vs_sync_error (e : String) (deltas : List String) :
    answerQuestion (.error e) = .error ("Failed to generate answer: " ++ e)
    ∧ answerQuestionStream deltas (some e) =
        deltas.filter (fun d => d ≠ "") ++ [streamErrorFragment]
    ∧ (answerQuestionStream deltas (some e)).getLast? = some streamErrorFragment
    ∧ (∀ err : Option String, (answerQuestionStream deltas err).length =
        (deltas.filter (fun d => d ≠ "")).length + (if err.isSome then 1 else 0))
    ∧ (∀ env : AskEnv, env.backend = .error e →
        askQuestionAccepts env.video_id env.question = true →
        env.videoFound = true → env.videoReady = true →
        askQuestionEndpoint env = .error (500, "Failed to generate answer: " ++ e)) := by
  refine ⟨rfl, ?_, ?_, ?_, ?_⟩
  · simp [answerQuestionStream]
  · simp [answerQuestionStream, List.getLast?_concat]
  · intro err
    cases err <;> simp [answerQuestionStream]
  · intro env hb hacc hf hr
    unfold askQuestionEndpoint
    rw [hacc, hf, hr]
    simp [answerQuestion, hb]

/-- C9 against the code: `ask_question_endpoint` validates its raw dict
only with `if not video_id or not question`, so a 2001-character question
— rejected by the declared `AskQuestionRequest` schema bounds (1–2000) —
passes validation and flows into context building and answer generation;
only the empty question is rejected up front. -/
theorem C9_overlong_question_not_rejected :
    askQuestionRequestValid (String.mk (List.replicate 2001 'a')) = false
    ∧ askQuestionAccepts (some "vid1") (String.mk (List.replicate 2001 'a')) = true
    ∧ askQuestionEndpoint ⟨some "vid1", String.mk (List.replicate 2001 'a'), 0, true, true,
        none, [], [], .ok "fine"⟩ = .ok ("", "fine")
    ∧ askQuestionEndpoint ⟨some "vid1", "", 0, true, true, none, [], [], .ok "fine"⟩ =
        .error (400, "video_id and question are required") := by
  have hlen : (String.mk (List.replicate 2001 'a')).length = 2001 := by
    rw [String.length_mk, List.length_replicate]
  have hne : String.mk (List.replicate 2001 'a') ≠ "" := by
    intro h
    have := congrArg String.length h
    rw [hlen] at this
    simp at this
  have hacc : askQuestionAccepts (some "vid1") (String.mk (List.replicate 2001 'a')) = true := by
    unfold askQuestionAccepts
    simp [hne]
  refine ⟨?_, hacc, ?_, ?_⟩
  · unfold askQuestionRequestValid
    rw [hlen]
    simp
  · unfold askQuestionEndpoint
    rw [hacc]
    simp [buildContext, buildContextParts, summarySection, transcriptSection,
      relevantChunks, qaSection, answerQuestion, joinSep]
  · rfl

/-- C10: every exception inside the caption path is caught and treated as
"no captions": `fetch_youtube_captions` returns `None`, `get_transcript`
then takes the Whisper fallback, and `get_transcript` raises only when
that fallback raises. -/
theorem C10_caption_errors_fallback (cenv : CaptionEnv) (wenv : WhisperEnv) :
    (cenv.raises = true → fetchYoutubeCaptions cenv = none)
    ∧ (cenv.subFileFound = false → fetchYoutubeCaptions cenv = none)
    ∧ (fetchYoutubeCaptions cenv = none →
        getTranscript cenv wenv =
          match transcribeWithWhisper wenv with
          | .error e => .error e
          | .ok cs => .ok (cs, "whisper"))
    ∧ (∀ e, getTranscript cenv wenv = .error e → transcribeWithWhisper wenv = .error e) := by
  refine ⟨?_, ?_, ?_, ?_⟩
  · intro h
    simp [fetchYoutubeCaptions, h]
  · intro h
    unfold fetchYoutubeCaptions
    rw [h]
    simp
  · intro h
    unfold getTranscript
    rw [h]
  · intro e h
    unfold getTranscript at h
    rcases hf : fetchYoutubeCaptions cenv with _ | chunks <;> rw [hf] at h
    · rcases hw : transcribeWithWhisper wenv with e' | cs <;> rw [hw] at h
      · injection h with h1
        rw [h1]
      · cases h
    · simp only at h
      by_cases hc : chunks.isEmpty
      · rw [if_pos hc] at h
        rcases hw : transcribeWithWhisper wenv with e' | cs <;> rw [hw] at h
        · injection h with h1
          rw [h1]
        · cases h
      · rw [if_neg hc] at h
        cases h

end SmartTutor
